import Mathlib

/-!
Shallow embedding of the NTHU-Scheduler-Plugin custom scheduler
(src/pkg/plugins/scheduler.go) and verification of its specification.

The plugin has four operations:
  * `New`            — construction / mode validation,
  * `PreFilter`      — group-quorum admission,
  * `Score`          — capacity-based raw scoring,
  * `NormalizeScore` — min-max rescaling of a score batch.

Go `int64` arithmetic wraps on overflow; the embedding makes that explicit
with `wrap64`.  Go's `/` on integers truncates toward zero, which is
`Int.tdiv` here.  External collaborators (the informer's pod lister and the
node-info snapshot) are passed in as explicit arguments of `Except` type.
-/

/-- Two's-complement wrap-around of a mathematical integer into the
`int64` range `[-2^63, 2^63)`, modelling Go's fixed-width arithmetic. -/
def wrap64 (x : Int) : Int :=
  (x + 2 ^ 63) % 2 ^ 64 - 2 ^ 63

/-- The plugin name constant `Name` from the source. -/
def Name : String := "CustomScheduler"

/-- Label key constant `groupNameLabel`. -/
def groupNameLabel : String := "podGroup"

/-- Label key constant `minAvailableLabel`. -/
def minAvailableLabel : String := "minAvailable"

/-- Mode string constant `leastMode`. -/
def leastMode : String := "Least"

/-- Mode string constant `mostMode`. -/
def mostMode : String := "Most"

/-- The scheduler framework constant `framework.MaxNodeScore` (= 100). -/
def MaxNodeScore : Int := 100

/-- Status codes used by the plugin: `framework.Success`, `framework.Error`,
`framework.Unschedulable`. -/
inductive Code where
  | Success
  | Error
  | Unschedulable
deriving DecidableEq, Repr

/-- `framework.Status`: a code together with a human-readable message,
as produced by `framework.NewStatus(code, msg)`. -/
structure Status where
  code : Code
  message : String
deriving DecidableEq, Repr

/-- `framework.NewStatus`. -/
def NewStatus (c : Code) (msg : String) : Status := ⟨c, msg⟩

/-- The part of `v1.Pod` the plugin reads: name, namespace, and the label
map (modelled as an association list). -/
structure Pod where
  Name : String
  Namespace : String
  Labels : List (String × String)
deriving DecidableEq, Repr

/-- `framework.PreFilterResult` (a set of node names); the plugin only ever
returns the nil pointer for it, modelled as `none : Option PreFilterResult`. -/
structure PreFilterResult where
  NodeNames : List String
deriving DecidableEq, Repr

/-- One entry of `framework.NodeScoreList`. -/
structure NodeScore where
  Name : String
  Score : Int
deriving DecidableEq, Repr

/-- `CustomSchedulerArgs`: the deserialized configuration payload with its
single `mode` field. -/
structure CustomSchedulerArgs where
  mode : String
deriving DecidableEq, Repr

/-- `CustomScheduler`: the plugin state.  The framework handle is not part
of the state model; the listers it provides are passed to the operations
directly. -/
structure CustomScheduler where
  scoreMode : String
deriving DecidableEq, Repr

/-- Digits accumulator of decimal parsing: consumes the remaining
characters, failing on the first non-digit. -/
def parseDigitsAux : List Char → Nat → Option Nat
  | [], acc => some acc
  | c :: cs, acc =>
    if c.isDigit then parseDigitsAux cs (acc * 10 + (c.toNat - 48)) else none

/-- Parses a non-empty all-digit character list as a natural number. -/
def parseDigitsNat (cs : List Char) : Option Nat :=
  match cs with
  | [] => none
  | _ => parseDigitsAux cs 0

/-- Syntax of `strconv.Atoi`'s accepted input: an optionally signed,
non-empty decimal digit string; `none` on any syntax error. -/
def parseDecInt (s : String) : Option Int :=
  match s.data with
  | '+' :: rest => (parseDigitsNat rest).map fun n => (n : Int)
  | '-' :: rest => (parseDigitsNat rest).map fun n => -(n : Int)
  | cs => (parseDigitsNat cs).map fun n => (n : Int)

/-- `strconv.Atoi` with the error ignored (as the source does): a syntax
error yields the zero value 0; an out-of-range value is clamped to the
`int64` bounds (Go returns the clamped value together with `ErrRange`). -/
def atoi (s : String) : Int :=
  match parseDecInt s with
  | none => 0
  | some v =>
    if v < -(2 ^ 63) then -(2 ^ 63)
    else if v > 2 ^ 63 - 1 then 2 ^ 63 - 1
    else v

/-- `New`: construction.  `obj` models the optional `runtime.Object`
payload; when present, its value models the outcome of `json.Unmarshal`
into a fresh zero-valued `CustomSchedulerArgs` — `none` is an unmarshal
error (the source only prints it and keeps the zero value, whose `mode`
is the empty string), `some args` is a successful unmarshal. -/
def New (obj : Option (Option CustomSchedulerArgs)) :
    Except String CustomScheduler :=
  let mode := leastMode
  match obj with
  | none => .ok ⟨mode⟩
  | some unmarshalled =>
    let csArgs : CustomSchedulerArgs := unmarshalled.getD ⟨""⟩
    let mode := csArgs.mode
    if mode ≠ leastMode ∧ mode ≠ mostMode then
      .error ("invalid mode, got " ++ mode)
    else
      .ok ⟨mode⟩

/-- `PreFilter`.  `lister ns key value` models
`SharedInformerFactory().…Pods(ns).List(selector)` with the single-key
exact-match selector `{key: value}`; it may fail with an error text. -/
def PreFilter (lister : String → String → String → Except String (List Pod))
    (pod : Pod) : Option PreFilterResult × Status :=
  let newStatus := NewStatus .Success ""
  let label? := pod.Labels.lookup groupNameLabel
  let minAvailable := (pod.Labels.lookup minAvailableLabel).getD ""
  match label? with
  | none => (none, NewStatus .Success "no group label")
  | some label =>
    match lister pod.Namespace groupNameLabel label with
    | .error err => (none, NewStatus .Error err)
    | .ok pods =>
      let minAvailableInt := atoi minAvailable
      if (pods.length : Int) < minAvailableInt then
        (none, NewStatus .Unschedulable "not enough pods in the group")
      else
        (none, newStatus)

/-- `Score`.  `nodeLookup` models
`SnapshotSharedLister().NodeInfos().Get(nodeName)` followed by reading the
node's allocatable memory: either an error text or the `int64` memory
value.  A `none` status is the nil `*framework.Status`, which the
framework treats as success. -/
def Score (cs : CustomScheduler) (nodeLookup : Except String Int) :
    Int × Option Status :=
  match nodeLookup with
  | .error err => (0, some (NewStatus .Error err))
  | .ok nodeMemory =>
    if cs.scoreMode = leastMode then
      (wrap64 (-nodeMemory), none)
    else if cs.scoreMode = mostMode then
      (nodeMemory, none)
    else
      (0, none)

/-- One iteration of `NormalizeScore`'s min/max scan: lower the running
minimum and raise the running maximum with the entry's score. -/
def mmStep (p : Int × Int) (ns : NodeScore) : Int × Int :=
  (if ns.Score < p.1 then ns.Score else p.1,
   if ns.Score > p.2 then ns.Score else p.2)

/-- The single scan of `NormalizeScore` that accumulates the minimum and
maximum score, both starting from `scores[0].Score`. -/
def minMaxFold (init : Int) (scores : List NodeScore) : Int × Int :=
  scores.foldl mmStep (init, init)

/-- The per-entry rescaling expression of `NormalizeScore`:
`((scores[i].Score - minScore) * validRange / scoreRange) + validMin`,
with every intermediate `int64` operation wrapping and `/` truncating
toward zero. -/
def normalizeOne (minScore scoreRange validMin validRange s : Int) : Int :=
  wrap64 (wrap64 ((wrap64 (wrap64 (s - minScore) * validRange)).tdiv scoreRange) + validMin)

/-- `NormalizeScore`.  The batch is returned (the Go code rewrites the
slice in place) together with the returned status. -/
def NormalizeScore (scores : List NodeScore) : List NodeScore × Status :=
  match scores with
  | [] => ([], NewStatus .Success "No scores to normalize")
  | s0 :: _ =>
    let mm := minMaxFold s0.Score scores
    let minScore := mm.1
    let maxScore := mm.2
    let validMin : Int := 0
    let validMax : Int := MaxNodeScore
    if minScore = maxScore then
      (scores.map fun ns => { ns with Score := (validMin + validMax).tdiv 2 },
       NewStatus .Success "")
    else
      let scoreRange := wrap64 (maxScore - minScore)
      let validRange := validMax - validMin
      (scores.map fun ns =>
        { ns with Score := normalizeOne minScore scoreRange validMin validRange ns.Score },
       NewStatus .Success "")

theorem wrap64_eq_self {x : Int} (h0 : -(2 ^ 63) ≤ x) (h1 : x < 2 ^ 63) :
    wrap64 x = x := by
  have e63 : (2 : Int) ^ 63 = 9223372036854775808 := by norm_num
  have e64 : (2 : Int) ^ 64 = 18446744073709551616 := by norm_num
  unfold wrap64
  rw [Int.emod_eq_of_lt (by omega) (by omega)]
  omega

/-- C7: a work unit with no group-name label is admitted unconditionally
with message "no group label", for every lister (so the cluster state is
never consulted) and every minimum-availability label value. -/
theorem preFilter_no_group_label
    (lister : String → String → String → Except String (List Pod)) (pod : Pod)
    (h : pod.Labels.lookup groupNameLabel = none) :
    PreFilter lister pod = (none, NewStatus .Success "no group label") := by
  simp [PreFilter, h]

theorem preFilter_no_group_label_witness :
    PreFilter (fun _ _ _ => .error "reader offline")
      ⟨"p", "ns", [("minAvailable", "5")]⟩ =
      (none, NewStatus .Success "no group label") :=
  preFilter_no_group_label _ _ (by decide)

/-- C10: `PreFilter` returns the nil `PreFilterResult` in every branch:
it never restricts the candidate node set. -/
theorem preFilter_result_always_nil
    (lister : String → String → String → Except String (List Pod)) (pod : Pod) :
    (PreFilter lister pod).1 = none := by
  simp only [PreFilter]
  split
  · rfl
  · split
    · rfl
    · split <;> rfl

/-- C9: a failed group query makes `PreFilter` return an error outcome
carrying the underlying error text, and a failed capacity lookup makes
`Score` return an error outcome carrying the underlying error text;
neither failure is converted to success or unschedulable. -/
theorem lookup_error_propagation
    (lister : String → String → String → Except String (List Pod)) (pod : Pod)
    (l e : String)
    (hl : pod.Labels.lookup groupNameLabel = some l)
    (hq : lister pod.Namespace groupNameLabel l = .error e) :
    PreFilter lister pod = (none, NewStatus .Error e) ∧
    ∀ (cs : CustomScheduler) (e2 : String),
      Score cs (.error e2) = (0, some (NewStatus .Error e2)) := by
  constructor
  · simp [PreFilter, hl, hq]
  · intro cs e2
    rfl

theorem lookup_error_propagation_witness :
    PreFilter (fun _ _ _ => .error "boom") ⟨"p", "ns", [("podGroup", "g")]⟩ =
      (none, NewStatus .Error "boom") ∧
    Score ⟨"Least"⟩ (.error "node not found") =
      (0, some (NewStatus .Error "node not found")) := by
  have h := lookup_error_propagation (fun _ _ _ => .error "boom")
    ⟨"p", "ns", [("podGroup", "g")]⟩ "g" "boom" (by decide) rfl
  exact ⟨h.1, h.2 ⟨"Least"⟩ "node not found"⟩

/-- C4: with a group-name label present, an absent or syntactically
malformed minimum-availability label is treated as zero, so a successful
group query always yields a success outcome. -/
theorem preFilter_malformed_min_available
    (lister : String → String → String → Except String (List Pod)) (pod : Pod)
    (l : String) (pods : List Pod)
    (hl : pod.Labels.lookup groupNameLabel = some l)
    (hm : pod.Labels.lookup minAvailableLabel = none ∨
          parseDecInt ((pod.Labels.lookup minAvailableLabel).getD "") = none)
    (hq : lister pod.Namespace groupNameLabel l = .ok pods) :
    PreFilter lister pod = (none, NewStatus .Success "") := by
  have hz : atoi ((pod.Labels.lookup minAvailableLabel).getD "") = 0 := by
    rcases hm with hm | hm
    · rw [hm]
      rfl
    · simp [atoi, hm]
  have hnn : ¬ ((pods.length : Int) < 0) := by omega
  simp [PreFilter, hl, hq, hz, hnn]

theorem preFilter_malformed_min_available_witness :
    PreFilter (fun _ _ _ => .ok []) ⟨"p", "ns", [("podGroup", "g"), ("minAvailable", "3x")]⟩ =
      (none, NewStatus .Success "") :=
  preFilter_malformed_min_available _ _ "g" [] (by decide) (Or.inr (by decide)) rfl

/-- C1: with a group-name label present and a successful group query:
if the group size is strictly below the parsed minimum-availability value
the unit is rejected as unschedulable with message "not enough pods in the
group"; otherwise it is admitted with a success outcome. -/
theorem preFilter_quorum_threshold
    (lister : String → String → String → Except String (List Pod)) (pod : Pod)
    (l : String) (pods : List Pod)
    (hl : pod.Labels.lookup groupNameLabel = some l)
    (hq : lister pod.Namespace groupNameLabel l = .ok pods) :
    ((pods.length : Int) < atoi ((pod.Labels.lookup minAvailableLabel).getD "") →
      PreFilter lister pod =
        (none, NewStatus .Unschedulable "not enough pods in the group")) ∧
    (atoi ((pod.Labels.lookup minAvailableLabel).getD "") ≤ (pods.length : Int) →
      PreFilter lister pod = (none, NewStatus .Success "")) := by
  constructor
  · intro h
    simp [PreFilter, hl, hq, h]
  · intro h
    have h' : ¬ ((pods.length : Int) <
        atoi ((pod.Labels.lookup minAvailableLabel).getD "")) := not_lt.mpr h
    simp [PreFilter, hl, hq, h']

theorem preFilter_quorum_threshold_witness :
    PreFilter (fun _ _ _ => .ok [⟨"p1", "ns", []⟩, ⟨"p2", "ns", []⟩])
      ⟨"p", "ns", [("podGroup", "g"), ("minAvailable", "3")]⟩ =
      (none, NewStatus .Unschedulable "not enough pods in the group") ∧
    PreFilter (fun _ _ _ => .ok [⟨"p1", "ns", []⟩, ⟨"p2", "ns", []⟩, ⟨"p3", "ns", []⟩])
      ⟨"p", "ns", [("podGroup", "g"), ("minAvailable", "3")]⟩ =
      (none, NewStatus .Success "") := by
  constructor
  · exact (preFilter_quorum_threshold _ _ "g" _ (by decide) rfl).1 (by decide)
  · exact (preFilter_quorum_threshold _ _ "g" _ (by decide) rfl).2 (by decide)

/-- C3: on a successful capacity lookup of an `int64` memory value `m ≥ 0`,
`Least` mode scores `-m`, `Most` mode scores `+m`, any other mode scores 0,
and the induced orderings are strict: larger memory scores strictly lower
in `Least` mode and strictly higher in `Most` mode. -/
theorem score_mode_sign (m : Int) (h0 : 0 ≤ m) (h1 : m < 2 ^ 63) :
    Score ⟨leastMode⟩ (.ok m) = (-m, none) ∧
    Score ⟨mostMode⟩ (.ok m) = (m, none) ∧
    (∀ mode : String, mode ≠ leastMode → mode ≠ mostMode →
      Score ⟨mode⟩ (.ok m) = (0, none)) ∧
    (∀ m2 : Int, m < m2 → m2 < 2 ^ 63 →
      (Score ⟨leastMode⟩ (.ok m2)).1 < (Score ⟨leastMode⟩ (.ok m)).1 ∧
      (Score ⟨mostMode⟩ (.ok m)).1 < (Score ⟨mostMode⟩ (.ok m2)).1) := by
  have hw : ∀ x : Int, 0 ≤ x → x < 2 ^ 63 → wrap64 (-x) = -x := by
    intro x hx0 hx1
    exact wrap64_eq_self (by omega) (by omega)
  refine ⟨?_, ?_, ?_, ?_⟩
  · simp [Score, hw m h0 h1]
  · simp [Score, mostMode, leastMode]
  · intro mode hne1 hne2
    simp [Score, hne1, hne2]
  · intro m2 hlt h2
    have hm2 : (0 : Int) ≤ m2 := le_of_lt (lt_of_le_of_lt h0 hlt)
    constructor
    · simp [Score, hw m h0 h1, hw m2 hm2 h2]
      omega
    · simp [Score, mostMode, leastMode]
      omega

theorem score_mode_sign_witness :
    Score ⟨"Least"⟩ (.ok 4096) = (-4096, none) ∧
    (Score ⟨"Least"⟩ (.ok 8192)).1 < (Score ⟨"Least"⟩ (.ok 4096)).1 := by
  have h := score_mode_sign 4096 (by norm_num) (by norm_num)
  exact ⟨h.1, (h.2.2.2 8192 (by norm_num) (by norm_num)).1⟩

/-- C5: construction with no payload defaults to `Least`; with a payload it
fails with a configuration error exactly when the payload fails to
deserialize (leaving the zero-valued args, whose mode is the empty string)
or the deserialized mode is neither `Least` nor `Most`; mode "Average"
fails, and every successfully constructed instance holds `Least` or
`Most`. -/
theorem new_mode_validation :
    New none = .ok ⟨leastMode⟩ ∧
    (∀ r : Option CustomSchedulerArgs,
      (∃ e, New (some r) = .error e) ↔
        (r = none ∨ ∃ a, r = some a ∧ a.mode ≠ leastMode ∧ a.mode ≠ mostMode)) ∧
    (∀ (obj : Option (Option CustomSchedulerArgs)) (cs : CustomScheduler),
      New obj = .ok cs → cs.scoreMode = leastMode ∨ cs.scoreMode = mostMode) ∧
    New (some (some ⟨"Average"⟩)) = .error "invalid mode, got Average" := by
  refine ⟨rfl, ?_, ?_, rfl⟩
  · intro r
    cases r with
    | none =>
      constructor
      · intro _
        exact Or.inl rfl
      · intro _
        exact ⟨"invalid mode, got ", rfl⟩
    | some a =>
      by_cases h : a.mode ≠ leastMode ∧ a.mode ≠ mostMode
      · constructor
        · intro _
          exact Or.inr ⟨a, rfl, h⟩
        · intro _
          exact ⟨"invalid mode, got " ++ a.mode, by simp [New, h]⟩
      · constructor
        · rintro ⟨e, he⟩
          simp [New, h] at he
        · rintro (h' | ⟨a', ha', hm1, hm2⟩)
          · exact absurd h' (by simp)
          · rw [Option.some_inj] at ha'
            exact absurd ⟨ha' ▸ hm1, ha' ▸ hm2⟩ h
  · intro obj cs h
    cases obj with
    | none =>
      rw [New, Except.ok.injEq] at h
      left
      rw [← h]
    | some r =>
      by_cases hm : (r.getD ⟨""⟩).mode ≠ leastMode ∧ (r.getD ⟨""⟩).mode ≠ mostMode
      · simp [New, hm] at h
      · simp [New, hm] at h
        rcases not_and_or.mp hm with hm' | hm'
        · left
          rw [← h, not_ne_iff.mp hm']
        · right
          rw [← h, not_ne_iff.mp hm']

theorem new_mode_validation_witness :
    (∃ e, New (some (some ⟨"Average"⟩)) = .error e) ∧ New none = .ok ⟨"Least"⟩ := by
  have h := new_mode_validation
  exact ⟨(h.2.1 (some ⟨"Average"⟩)).mpr (Or.inr ⟨⟨"Average"⟩, rfl, by decide, by decide⟩), h.1⟩

theorem foldl_mmStep_acc (l : List NodeScore) (p : Int × Int) :
    (l.foldl mmStep p).1 ≤ p.1 ∧ p.2 ≤ (l.foldl mmStep p).2 := by
  induction l generalizing p with
  | nil => exact ⟨le_refl _, le_refl _⟩
  | cons hd tl ih =>
    rw [List.foldl_cons]
    have hstep : (mmStep p hd).1 ≤ p.1 ∧ p.2 ≤ (mmStep p hd).2 := by
      unfold mmStep
      constructor <;> dsimp <;> split <;> omega
    have h := ih (mmStep p hd)
    exact ⟨le_trans h.1 hstep.1, le_trans hstep.2 h.2⟩

theorem foldl_mmStep_bounds (l : List NodeScore) (p : Int × Int) :
    ∀ ns ∈ l, (l.foldl mmStep p).1 ≤ ns.Score ∧ ns.Score ≤ (l.foldl mmStep p).2 := by
  induction l generalizing p with
  | nil =>
    intro ns h
    cases h
  | cons hd tl ih =>
    intro ns hmem
    rw [List.foldl_cons]
    rcases List.mem_cons.mp hmem with h | h
    · subst h
      have h1 := foldl_mmStep_acc tl (mmStep p ns)
      have h2 : (mmStep p ns).1 ≤ ns.Score ∧ ns.Score ≤ (mmStep p ns).2 := by
        unfold mmStep
        constructor <;> dsimp <;> split <;> omega
      exact ⟨le_trans h1.1 h2.1, le_trans h2.2 h1.2⟩
    · exact ih (mmStep p hd) ns h

theorem foldl_mmStep_attained (l : List NodeScore) (p : Int × Int) :
    ((l.foldl mmStep p).1 = p.1 ∨ ∃ ns ∈ l, ns.Score = (l.foldl mmStep p).1) ∧
    ((l.foldl mmStep p).2 = p.2 ∨ ∃ ns ∈ l, ns.Score = (l.foldl mmStep p).2) := by
  induction l generalizing p with
  | nil => exact ⟨Or.inl rfl, Or.inl rfl⟩
  | cons hd tl ih =>
    rw [List.foldl_cons]
    have h := ih (mmStep p hd)
    constructor
    · rcases h.1 with h1 | ⟨ns, hns, he⟩
      · rw [h1]
        unfold mmStep
        dsimp
        split
        · exact Or.inr ⟨hd, List.mem_cons_self _ _, rfl⟩
        · exact Or.inl rfl
      · exact Or.inr ⟨ns, List.mem_cons_of_mem _ hns, he⟩
    · rcases h.2 with h1 | ⟨ns, hns, he⟩
      · rw [h1]
        unfold mmStep
        dsimp
        split
        · exact Or.inr ⟨hd, List.mem_cons_self _ _, rfl⟩
        · exact Or.inl rfl
      · exact Or.inr ⟨ns, List.mem_cons_of_mem _ hns, he⟩

theorem minMax_bounds (s0 : NodeScore) (rest : List NodeScore) :
    ∀ ns ∈ s0 :: rest,
      (minMaxFold s0.Score (s0 :: rest)).1 ≤ ns.Score ∧
      ns.Score ≤ (minMaxFold s0.Score (s0 :: rest)).2 :=
  foldl_mmStep_bounds (s0 :: rest) (s0.Score, s0.Score)

theorem minMax_attained (s0 : NodeScore) (rest : List NodeScore) :
    (∃ ns ∈ s0 :: rest, ns.Score = (minMaxFold s0.Score (s0 :: rest)).1) ∧
    (∃ ns ∈ s0 :: rest, ns.Score = (minMaxFold s0.Score (s0 :: rest)).2) := by
  have h := foldl_mmStep_attained (s0 :: rest) (s0.Score, s0.Score)
  constructor
  · rcases h.1 with h1 | h1
    · exact ⟨s0, List.mem_cons_self _ _, h1.symm⟩
    · exact h1
  · rcases h.2 with h2 | h2
    · exact ⟨s0, List.mem_cons_self _ _, h2.symm⟩
    · exact h2

theorem minMax_le (s0 : NodeScore) (rest : List NodeScore) :
    (minMaxFold s0.Score (s0 :: rest)).1 ≤ (minMaxFold s0.Score (s0 :: rest)).2 := by
  have h := minMax_bounds s0 rest s0 (List.mem_cons_self _ _)
  omega

theorem foldl_mmStep_const (l : List NodeScore) (a : Int)
    (h : ∀ ns ∈ l, ns.Score = a) : l.foldl mmStep (a, a) = (a, a) := by
  induction l with
  | nil => rfl
  | cons hd tl ih =>
    rw [List.foldl_cons]
    have hhd : hd.Score = a := h hd (List.mem_cons_self _ _)
    have hstep : mmStep (a, a) hd = (a, a) := by
      unfold mmStep
      rw [hhd]
      simp
    rw [hstep]
    exact ih fun ns hns => h ns (List.mem_cons_of_mem _ hns)

theorem normalizeOne_eq_tdiv (mn mx s : Int)
    (hms : mn ≤ s) (hsx : s ≤ mx) (hlt : mn < mx)
    (hov : (mx - mn) * MaxNodeScore ≤ 2 ^ 63 - 1) :
    normalizeOne mn (wrap64 (mx - mn)) 0 (MaxNodeScore - 0) s =
      ((s - mn) * MaxNodeScore).tdiv (mx - mn) := by
  have e63 : (2 : Int) ^ 63 = 9223372036854775808 := by norm_num
  have hM : (0 : Int) < MaxNodeScore := by norm_num [MaxNodeScore]
  have hr0 : 0 < mx - mn := by omega
  have hrange : mx - mn ≤ (mx - mn) * MaxNodeScore :=
    le_mul_of_one_le_right (le_of_lt hr0) (by norm_num [MaxNodeScore])
  have hw_range : wrap64 (mx - mn) = mx - mn :=
    wrap64_eq_self (by omega) (by omega)
  have hd0 : 0 ≤ s - mn := by omega
  have hdle : s - mn ≤ mx - mn := by omega
  have hd100 : (s - mn) * MaxNodeScore ≤ (mx - mn) * MaxNodeScore :=
    mul_le_mul_of_nonneg_right hdle (le_of_lt hM)
  have hd100n : 0 ≤ (s - mn) * MaxNodeScore := mul_nonneg hd0 (le_of_lt hM)
  have hw_d : wrap64 (s - mn) = s - mn := wrap64_eq_self (by omega) (by omega)
  have hw_prod : wrap64 ((s - mn) * MaxNodeScore) = (s - mn) * MaxNodeScore :=
    wrap64_eq_self (by omega) (by omega)
  have hq0 : 0 ≤ ((s - mn) * MaxNodeScore).tdiv (mx - mn) :=
    Int.tdiv_nonneg hd100n (le_of_lt hr0)
  have hqM : ((s - mn) * MaxNodeScore).tdiv (mx - mn) ≤ MaxNodeScore := by
    rw [Int.tdiv_eq_ediv hd100n (le_of_lt hr0)]
    exact Int.ediv_le_of_le_mul hr0 (by linarith)
  have hMlt : MaxNodeScore < 2 ^ 63 := by norm_num [MaxNodeScore]
  have hw_q : wrap64 (((s - mn) * MaxNodeScore).tdiv (mx - mn)) =
      ((s - mn) * MaxNodeScore).tdiv (mx - mn) :=
    wrap64_eq_self (by omega) (by omega)
  have hMsub : MaxNodeScore - 0 = MaxNodeScore := by ring
  unfold normalizeOne
  rw [hMsub, hw_range, hw_d, hw_prod, hw_q, add_zero]
  exact hw_q

theorem tdivFormula_bounds (mn mx s : Int)
    (hms : mn ≤ s) (hsx : s ≤ mx) (hlt : mn < mx) :
    0 ≤ ((s - mn) * MaxNodeScore).tdiv (mx - mn) ∧
    ((s - mn) * MaxNodeScore).tdiv (mx - mn) ≤ MaxNodeScore := by
  have hM : (0 : Int) < MaxNodeScore := by norm_num [MaxNodeScore]
  have hr0 : 0 < mx - mn := by omega
  have hd100n : 0 ≤ (s - mn) * MaxNodeScore := mul_nonneg (by omega) (le_of_lt hM)
  constructor
  · exact Int.tdiv_nonneg hd100n (le_of_lt hr0)
  · rw [Int.tdiv_eq_ediv hd100n (le_of_lt hr0)]
    have hd100 : (s - mn) * MaxNodeScore ≤ (mx - mn) * MaxNodeScore :=
      mul_le_mul_of_nonneg_right (by omega) (le_of_lt hM)
    exact Int.ediv_le_of_le_mul hr0 (by linarith)

theorem tdivFormula_min (mn mx : Int) :
    ((mn - mn) * MaxNodeScore).tdiv (mx - mn) = 0 := by
  rw [sub_self, zero_mul, Int.zero_tdiv]

theorem tdivFormula_max (mn mx : Int) (hlt : mn < mx) :
    ((mx - mn) * MaxNodeScore).tdiv (mx - mn) = MaxNodeScore := by
  have hr0 : 0 < mx - mn := by omega
  have hM : (0 : Int) ≤ MaxNodeScore := by norm_num [MaxNodeScore]
  rw [Int.tdiv_eq_ediv (mul_nonneg (le_of_lt hr0) hM) (le_of_lt hr0)]
  rw [mul_comm]
  exact Int.mul_ediv_cancel _ (by omega)

theorem tdivFormula_mono (mn mx s t : Int)
    (hms : mn ≤ s) (hst : s ≤ t) (hlt : mn < mx) :
    ((s - mn) * MaxNodeScore).tdiv (mx - mn) ≤
      ((t - mn) * MaxNodeScore).tdiv (mx - mn) := by
  have hM : (0 : Int) ≤ MaxNodeScore := by norm_num [MaxNodeScore]
  have hr0 : 0 < mx - mn := by omega
  have hs0 : 0 ≤ (s - mn) * MaxNodeScore := mul_nonneg (by omega) hM
  have ht0 : 0 ≤ (t - mn) * MaxNodeScore := mul_nonneg (by omega) hM
  rw [Int.tdiv_eq_ediv hs0 (le_of_lt hr0), Int.tdiv_eq_ediv ht0 (le_of_lt hr0)]
  exact Int.ediv_le_ediv hr0 (mul_le_mul_of_nonneg_right (by omega) hM)

theorem normalizeScore_eq_branch (s0 : NodeScore) (rest : List NodeScore)
    (h : (minMaxFold s0.Score (s0 :: rest)).1 = (minMaxFold s0.Score (s0 :: rest)).2) :
    NormalizeScore (s0 :: rest) =
      ((s0 :: rest).map fun ns => { ns with Score := ((0 : Int) + MaxNodeScore).tdiv 2 },
       NewStatus .Success "") := by
  simp only [NormalizeScore]
  rw [if_pos h]

theorem normalizeScore_ne_branch (s0 : NodeScore) (rest : List NodeScore)
    (h : (minMaxFold s0.Score (s0 :: rest)).1 ≠ (minMaxFold s0.Score (s0 :: rest)).2) :
    NormalizeScore (s0 :: rest) =
      ((s0 :: rest).map fun ns =>
        { ns with Score :=
            (normalizeOne (minMaxFold s0.Score (s0 :: rest)).1
              (wrap64 ((minMaxFold s0.Score (s0 :: rest)).2 -
                (minMaxFold s0.Score (s0 :: rest)).1))
              0 (MaxNodeScore - 0) ns.Score) },
       NewStatus .Success "") := by
  simp only [NormalizeScore]
  rw [if_neg h]

/-- C8: a non-empty batch whose raw scores are all equal (in particular any
singleton batch) is normalized so that every entry gets the midpoint
`(0 + MaxNodeScore) / 2` under truncating integer division, which is 50,
and the returned status is a success. -/
theorem normalizeScore_all_equal_midpoint (s0 : NodeScore) (rest : List NodeScore)
    (h : ∀ ns ∈ s0 :: rest, ns.Score = s0.Score) :
    (NormalizeScore (s0 :: rest)).2 = NewStatus .Success "" ∧
    (∀ ns ∈ (NormalizeScore (s0 :: rest)).1,
      ns.Score = ((0 : Int) + MaxNodeScore).tdiv 2 ∧ ns.Score = 50) ∧
    (NormalizeScore (s0 :: rest)).1.length = (s0 :: rest).length := by
  have hmm : minMaxFold s0.Score (s0 :: rest) = (s0.Score, s0.Score) :=
    foldl_mmStep_const _ _ h
  have hbranch := normalizeScore_eq_branch s0 rest (by rw [hmm])
  rw [hbranch]
  refine ⟨rfl, ?_, by simp⟩
  intro ns hns
  rw [List.mem_map] at hns
  obtain ⟨x, _, hx⟩ := hns
  rw [← hx]
  exact ⟨rfl, rfl⟩

theorem normalizeScore_all_equal_midpoint_witness :
    (NormalizeScore [⟨"a", 7⟩, ⟨"b", 7⟩, ⟨"c", 7⟩]).2 = NewStatus .Success "" ∧
    ∀ ns ∈ (NormalizeScore [⟨"a", 7⟩, ⟨"b", 7⟩, ⟨"c", 7⟩]).1, ns.Score = 50 := by
  have h := normalizeScore_all_equal_midpoint ⟨"a", 7⟩ [⟨"b", 7⟩, ⟨"c", 7⟩] (by decide)
  exact ⟨h.1, fun ns hns => (h.2.1 ns hns).2⟩

/-- C2 counterexample: in the batch `[("a", 0), ("b", 2^63 - 1)]` the raw
scores are not all equal and entry "b" holds the strictly largest raw
score, yet 64-bit wrap-around in `(raw - minScore) * MaxNodeScore` makes
`NormalizeScore` map it to 0, not to `MaxNodeScore`. -/
theorem normalizeScore_minmax_overflow_cex :
    ((0 : Int) < 2 ^ 63 - 1) ∧
    (NormalizeScore [⟨"a", 0⟩, ⟨"b", 2 ^ 63 - 1⟩]).1 = [⟨"a", 0⟩, ⟨"b", 0⟩] ∧
    (0 : Int) ≠ MaxNodeScore := by
  refine ⟨by norm_num, by decide, by decide⟩

/-- C2 (amended): for a non-empty batch whose raw scores are not all equal,
provided every scaled pairwise difference `(raw_i - raw_j) * MaxNodeScore`
fits in `int64` (no 64-bit overflow), `NormalizeScore` succeeds and rewrites
each entry to `((raw - minScore) * MaxNodeScore) / (maxScore - minScore)`
with truncating division; hence every result lies in `[0, MaxNodeScore]`,
the minimum raw score maps to 0 and the maximum maps to `MaxNodeScore`. -/
theorem normalizeScore_bounds_amended (s0 : NodeScore) (rest : List NodeScore)
    (hne : ∃ ns ∈ s0 :: rest, ns.Score ≠ s0.Score)
    (hov : ∀ x ∈ s0 :: rest, ∀ y ∈ s0 :: rest,
      (x.Score - y.Score) * MaxNodeScore ≤ 2 ^ 63 - 1) :
    NormalizeScore (s0 :: rest) =
      ((s0 :: rest).map fun ns =>
        { ns with Score :=
            (((ns.Score - (minMaxFold s0.Score (s0 :: rest)).1) * MaxNodeScore).tdiv
              ((minMaxFold s0.Score (s0 :: rest)).2 -
                (minMaxFold s0.Score (s0 :: rest)).1)) },
       NewStatus .Success "") ∧
    (∀ ns ∈ (NormalizeScore (s0 :: rest)).1, 0 ≤ ns.Score ∧ ns.Score ≤ MaxNodeScore) ∧
    ((((minMaxFold s0.Score (s0 :: rest)).1 - (minMaxFold s0.Score (s0 :: rest)).1) *
        MaxNodeScore).tdiv
      ((minMaxFold s0.Score (s0 :: rest)).2 - (minMaxFold s0.Score (s0 :: rest)).1) = 0) ∧
    ((((minMaxFold s0.Score (s0 :: rest)).2 - (minMaxFold s0.Score (s0 :: rest)).1) *
        MaxNodeScore).tdiv
      ((minMaxFold s0.Score (s0 :: rest)).2 - (minMaxFold s0.Score (s0 :: rest)).1) =
      MaxNodeScore) := by
  have hbounds := minMax_bounds s0 rest
  have hle := minMax_le s0 rest
  have hlt : (minMaxFold s0.Score (s0 :: rest)).1 < (minMaxFold s0.Score (s0 :: rest)).2 := by
    rcases lt_or_eq_of_le hle with h | h
    · exact h
    · exfalso
      obtain ⟨ns, hns, hneq⟩ := hne
      have h1 := hbounds ns hns
      have h2 := hbounds s0 (List.mem_cons_self _ _)
      omega
  have hov' : ((minMaxFold s0.Score (s0 :: rest)).2 - (minMaxFold s0.Score (s0 :: rest)).1) *
      MaxNodeScore ≤ 2 ^ 63 - 1 := by
    obtain ⟨nx, hnx, hex⟩ := (minMax_attained s0 rest).2
    obtain ⟨nn, hnn, hen⟩ := (minMax_attained s0 rest).1
    have h := hov nx hnx nn hnn
    rw [hex, hen] at h
    exact h
  have heq : NormalizeScore (s0 :: rest) =
      ((s0 :: rest).map fun ns =>
        { ns with Score :=
            (((ns.Score - (minMaxFold s0.Score (s0 :: rest)).1) * MaxNodeScore).tdiv
              ((minMaxFold s0.Score (s0 :: rest)).2 -
                (minMaxFold s0.Score (s0 :: rest)).1)) },
       NewStatus .Success "") := by
    rw [normalizeScore_ne_branch s0 rest (ne_of_lt hlt)]
    have hmap := List.map_congr_left
      (l := s0 :: rest)
      (f := fun ns =>
        { ns with Score :=
            (normalizeOne (minMaxFold s0.Score (s0 :: rest)).1
              (wrap64 ((minMaxFold s0.Score (s0 :: rest)).2 -
                (minMaxFold s0.Score (s0 :: rest)).1))
              0 (MaxNodeScore - 0) ns.Score) })
      (g := fun ns =>
        { ns with Score :=
            (((ns.Score - (minMaxFold s0.Score (s0 :: rest)).1) * MaxNodeScore).tdiv
              ((minMaxFold s0.Score (s0 :: rest)).2 -
                (minMaxFold s0.Score (s0 :: rest)).1)) })
      (fun ns hns => by
        have hb := hbounds ns hns
        dsimp only
        rw [normalizeOne_eq_tdiv _ _ _ hb.1 hb.2 hlt hov'])
    rw [hmap]
  refine ⟨heq, ?_, tdivFormula_min _ _, tdivFormula_max _ _ hlt⟩
  intro ns hns
  rw [heq] at hns
  simp only [List.mem_map] at hns
  obtain ⟨x, hx, hxe⟩ := hns
  rw [← hxe]
  exact tdivFormula_bounds _ _ _ (hbounds x hx).1 (hbounds x hx).2 hlt

theorem normalizeScore_bounds_amended_witness :
    NormalizeScore [⟨"a", 10⟩, ⟨"b", 30⟩, ⟨"c", 20⟩] =
      ([⟨"a", 0⟩, ⟨"b", 100⟩, ⟨"c", 50⟩], NewStatus .Success "") := by
  have h := normalizeScore_bounds_amended ⟨"a", 10⟩ [⟨"b", 30⟩, ⟨"c", 20⟩]
    ⟨⟨"b", 30⟩, by decide, by decide⟩ (by decide)
  rw [h.1]
  decide

/-- C6 counterexample: in the batch `[("a", 0), ("b", 2^61), ("c", 2^63-1)]`,
entry "a"'s raw score 0 is at most entry "b"'s raw score `2^61`, yet after
`NormalizeScore` entry "a" scores 0 while entry "b" scores -1: 64-bit
wrap-around breaks order preservation (and the [0, MaxNodeScore] range). -/
theorem normalizeScore_monotone_cex :
    ((0 : Int) ≤ 2 ^ 61) ∧
    (NormalizeScore [⟨"a", 0⟩, ⟨"b", 2 ^ 61⟩, ⟨"c", 2 ^ 63 - 1⟩]).1 =
      [⟨"a", 0⟩, ⟨"b", -1⟩, ⟨"c", 0⟩] ∧
    ¬ ((0 : Int) ≤ -1) := by
  refine ⟨by norm_num, by decide, by decide⟩

theorem normalizeScore_fst_is_map (scores : List NodeScore) :
    ∃ f : NodeScore → Int,
      (NormalizeScore scores).1 = scores.map fun ns => { ns with Score := f ns } := by
  cases scores with
  | nil => exact ⟨fun ns => ns.Score, rfl⟩
  | cons s0 rest =>
    by_cases hd : (minMaxFold s0.Score (s0 :: rest)).1 = (minMaxFold s0.Score (s0 :: rest)).2
    · exact ⟨fun _ => ((0 : Int) + MaxNodeScore).tdiv 2,
        by rw [normalizeScore_eq_branch s0 rest hd]⟩
    · exact ⟨fun ns =>
        (normalizeOne (minMaxFold s0.Score (s0 :: rest)).1
          (wrap64 ((minMaxFold s0.Score (s0 :: rest)).2 -
            (minMaxFold s0.Score (s0 :: rest)).1))
          0 (MaxNodeScore - 0) ns.Score),
        by rw [normalizeScore_ne_branch s0 rest hd]⟩

/-- C6 (amended): `NormalizeScore` keeps the batch's length and entry order
and leaves every node name unchanged, rewriting only the score field; and
whenever every scaled pairwise difference `(raw_i - raw_j) * MaxNodeScore`
fits in `int64` (no 64-bit overflow), it is order-preserving: raw scores
`raw_i ≤ raw_j` yield normalized scores `out_i ≤ out_j`. -/
theorem normalizeScore_order_preserving_amended (scores : List NodeScore) :
    ((NormalizeScore scores).1.length = scores.length ∧
     ∀ i : Fin scores.length, ∀ hi : i.1 < (NormalizeScore scores).1.length,
       ((NormalizeScore scores).1.get ⟨i.1, hi⟩).Name = (scores.get i).Name) ∧
    ((∀ x ∈ scores, ∀ y ∈ scores, (x.Score - y.Score) * MaxNodeScore ≤ 2 ^ 63 - 1) →
     ∀ i j : Fin scores.length,
       ∀ hi : i.1 < (NormalizeScore scores).1.length,
       ∀ hj : j.1 < (NormalizeScore scores).1.length,
       (scores.get i).Score ≤ (scores.get j).Score →
       ((NormalizeScore scores).1.get ⟨i.1, hi⟩).Score ≤
         ((NormalizeScore scores).1.get ⟨j.1, hj⟩).Score) := by
  constructor
  · obtain ⟨f, hf⟩ := normalizeScore_fst_is_map scores
    constructor
    · rw [hf, List.length_map]
    · intro i hi
      simp only [List.get_eq_getElem, hf, List.getElem_map]
  · intro hov
    cases scores with
    | nil => exact fun i => i.elim0
    | cons s0 rest =>
      by_cases hd :
          (minMaxFold s0.Score (s0 :: rest)).1 = (minMaxFold s0.Score (s0 :: rest)).2
      · have heq := normalizeScore_eq_branch s0 rest hd
        intro i j hi hj hle
        have h1 : ((NormalizeScore (s0 :: rest)).1.get ⟨i.1, hi⟩).Score =
            ((0 : Int) + MaxNodeScore).tdiv 2 := by
          simp only [List.get_eq_getElem, heq, List.getElem_map]
        have h2 : ((NormalizeScore (s0 :: rest)).1.get ⟨j.1, hj⟩).Score =
            ((0 : Int) + MaxNodeScore).tdiv 2 := by
          simp only [List.get_eq_getElem, heq, List.getElem_map]
        rw [h1, h2]
      · have hlt := lt_of_le_of_ne (minMax_le s0 rest) hd
        have hbounds := minMax_bounds s0 rest
        have hov' : ((minMaxFold s0.Score (s0 :: rest)).2 -
            (minMaxFold s0.Score (s0 :: rest)).1) * MaxNodeScore ≤ 2 ^ 63 - 1 := by
          obtain ⟨nx, hnx, hex⟩ := (minMax_attained s0 rest).2
          obtain ⟨nn, hnn, hen⟩ := (minMax_attained s0 rest).1
          have h := hov nx hnx nn hnn
          rw [hex, hen] at h
          exact h
        have heq := normalizeScore_ne_branch s0 rest hd
        intro i j hi hj hle
        have hmi : (s0 :: rest).get i ∈ s0 :: rest := List.get_mem _ i.1 i.2
        have hmj : (s0 :: rest).get j ∈ s0 :: rest := List.get_mem _ j.1 j.2
        have h1 : ((NormalizeScore (s0 :: rest)).1.get ⟨i.1, hi⟩).Score =
            (normalizeOne (minMaxFold s0.Score (s0 :: rest)).1
              (wrap64 ((minMaxFold s0.Score (s0 :: rest)).2 -
                (minMaxFold s0.Score (s0 :: rest)).1))
              0 (MaxNodeScore - 0) ((s0 :: rest).get i).Score) := by
          simp only [List.get_eq_getElem, heq, List.getElem_map]
        have h2 : ((NormalizeScore (s0 :: rest)).1.get ⟨j.1, hj⟩).Score =
            (normalizeOne (minMaxFold s0.Score (s0 :: rest)).1
              (wrap64 ((minMaxFold s0.Score (s0 :: rest)).2 -
                (minMaxFold s0.Score (s0 :: rest)).1))
              0 (MaxNodeScore - 0) ((s0 :: rest).get j).Score) := by
          simp only [List.get_eq_getElem, heq, List.getElem_map]
        rw [h1, h2,
          normalizeOne_eq_tdiv _ _ _ (hbounds _ hmi).1 (hbounds _ hmi).2 hlt hov',
          normalizeOne_eq_tdiv _ _ _ (hbounds _ hmj).1 (hbounds _ hmj).2 hlt hov']
        exact tdivFormula_mono _ _ _ _ (hbounds _ hmi).1 hle hlt

theorem normalizeScore_order_preserving_amended_witness :
    ((NormalizeScore [⟨"a", 10⟩, ⟨"b", 30⟩]).1.length = 2 ∧
     ((NormalizeScore [⟨"a", 10⟩, ⟨"b", 30⟩]).1.get ⟨0, by decide⟩).Name = "a") ∧
    ((NormalizeScore [⟨"a", 10⟩, ⟨"b", 30⟩]).1.get ⟨0, by decide⟩).Score ≤
      ((NormalizeScore [⟨"a", 10⟩, ⟨"b", 30⟩]).1.get ⟨1, by decide⟩).Score := by
  have h := normalizeScore_order_preserving_amended [⟨"a", 10⟩, ⟨"b", 30⟩]
  refine ⟨⟨h.1.1, h.1.2 ⟨0, by decide⟩ (by decide)⟩, ?_⟩
  exact h.2 (by decide) ⟨0, by decide⟩ ⟨1, by decide⟩ (by decide) (by decide) (by decide)
